import Mathlib

/-!
Verification of the USPS Intelligent Mail Barcode encoder (uspsimb.py).

Strings of the Python source are modelled as `List Char`; Python's
arbitrary-precision non-negative integers as `Nat`.  Fallible operations
(assertion failures, index errors, unreachable branches) are modelled with
`Option` / `Except`.
-/

namespace USPSIMB

/-- Numeric value of a single digit character, models Python `int(c)`
for a digit character `c` (code point minus 48). -/
def digitVal (c : Char) : Nat := c.toNat - 48

/-- Decimal value of a digit string, models Python `int(s)` for a
string of decimal digits. -/
def strVal (s : List Char) : Nat := s.foldl (fun a c => a * 10 + digitVal c) 0

/-- Models Python `str.isdigit` restricted to ASCII: true when the string is
nonempty and every character is a decimal digit. -/
def isdigit (s : List Char) : Bool := !s.isEmpty && s.all Char.isDigit

/-- The five textual fields stored by `IntelligentMailBarcode.__init__`. -/
structure IntelligentMailBarcode where
  barcode_id : List Char
  service_type_id : List Char
  mailer_id : List Char
  serial_num : List Char
  deliv_zip : List Char
  deriving Repr, DecidableEq

namespace IntelligentMailBarcode

/-- Conjunction of every `assert` in `IntelligentMailBarcode.__init__`,
in source order; the constructor succeeds exactly when this is true. -/
def valid (r : IntelligentMailBarcode) : Bool :=
  isdigit r.barcode_id &&
  isdigit r.service_type_id &&
  isdigit r.mailer_id &&
  isdigit r.serial_num &&
  (isdigit r.deliv_zip || r.deliv_zip.length == 0) &&
  strVal r.barcode_id % 10 ≤ 4 &&
  strVal r.barcode_id ≤ 99 &&
  strVal r.service_type_id ≤ 999 &&
  (r.mailer_id.length == 6 || r.mailer_id.length == 9) &&
  (if r.mailer_id.length == 9 then
     900000000 ≤ strVal r.mailer_id && strVal r.mailer_id ≤ 999999999
   else
     strVal r.mailer_id ≤ 899999) &&
  (r.serial_num.length == 6 || r.serial_num.length == 9) &&
  (if r.serial_num.length == 9 then r.mailer_id.length == 6
   else r.mailer_id.length == 9) &&
  (r.deliv_zip.length == 0 || r.deliv_zip.length == 5 ||
   r.deliv_zip.length == 9 || r.deliv_zip.length == 11)

/-- Models the `tracking` property: concatenation of the four id fields. -/
def tracking (r : IntelligentMailBarcode) : List Char :=
  r.barcode_id ++ r.service_type_id ++ r.mailer_id ++ r.serial_num

/-- Models the `routing` property: the delivery zip verbatim. -/
def routing (r : IntelligentMailBarcode) : List Char := r.deliv_zip

end IntelligentMailBarcode

open IntelligentMailBarcode

/-- Failure modes of `from_t_and_r`: a Python `IndexError` from indexing past
the end of the string, or an `AssertionError` from the constructor. -/
inductive SplitErr where
  | indexError
  | validationError
  deriving Repr, DecidableEq

/-- Models `from_t_and_r`: split a tracking+routing string at the fixed
offsets, choosing the 6-versus-9-digit mailer split by the character at
offset 5, then run the constructor. -/
def from_t_and_r (s : List Char) : Except SplitErr IntelligentMailBarcode :=
  let tr := s.take 20
  let routing := s.drop 20
  let bar_id := tr.take 2
  let st_id := (tr.drop 2).take 3
  match tr.get? 5 with
  | none => .error .indexError
  | some c =>
    let (m_id, seq_num) :=
      if c = '9' then ((tr.drop 5).take 9, (tr.drop 14).take 6)
      else ((tr.drop 5).take 6, (tr.drop 11).take 9)
    let r : IntelligentMailBarcode := ⟨bar_id, st_id, m_id, seq_num, routing⟩
    if valid r then .ok r else .error .validationError

/-- The 16-round loop of `_reverse_unsigned_short`: shift the low bit of
`ushort` into `rev` on each round. -/
def revLoop : Nat → Nat → Nat → Nat
  | 0, _, rev => rev
  | rounds + 1, ushort, rev => revLoop rounds (ushort >>> 1) (rev <<< 1 ||| (ushort &&& 1))

/-- Models `_reverse_unsigned_short`: reverse the low 16 bits of a number. -/
def reverse_unsigned_short (ushort : Nat) : Nat := revLoop 16 ushort 0

/-- The bit-summing loop behind `bin(count).count` of the character 1:
add up the low `rounds` bits of `n`. -/
def bitCountLoop : Nat → Nat → Nat
  | 0, _ => 0
  | rounds + 1, n => (n &&& 1) + bitCountLoop rounds (n >>> 1)

/-- Number of set bits among the low 16 bits; models `bin(count).count` of
the character 1 for values below 2 to the 16. -/
def bitCount (n : Nat) : Nat := bitCountLoop 16 n

/-- Write value `v` at position `i` of a list, leaving the list unchanged when
`i` is out of range; models `lut[i] = v` on the in-range indices used. -/
def setNth : List Nat → Nat → Nat → List Nat
  | [], _, _ => []
  | _ :: xs, 0, v => v :: xs
  | x :: xs, n + 1, v => x :: setNth xs n v

/-- Reversal of the low 13 bits: the local variable `rev` of
`_lookup_table`, `_reverse_unsigned_short(count) >> 3`. -/
def rev13 (count : Nat) : Nat := reverse_unsigned_short count >>> 3

/-- One iteration of the `for count in range(8192)` loop of `_lookup_table`;
the state is the table together with the `lut_lower` and `lut_upper` fill
pointers. -/
def lutStep (table_type : Nat) : List Nat × Nat × Nat → Nat → List Nat × Nat × Nat
  | (lut, lut_lower, lut_upper), count =>
    if bitCount count ≠ table_type then (lut, lut_lower, lut_upper)
    else if rev13 count < count then (lut, lut_lower, lut_upper)
    else if count = rev13 count then
      (setNth lut lut_upper count, lut_lower, lut_upper - 1)
    else (setNth (setNth lut lut_lower count) (lut_lower + 1) (rev13 count),
          lut_lower + 2, lut_upper)

/-- First component of a scan state: the table itself, as returned by
`_lookup_table` (the fill pointers are locals that the source discards). -/
def lutFirst : List Nat × Nat × Nat → List Nat
  | (lut, _, _) => lut

/-- Models `_lookup_table`: build the codeword-to-character table of the given
type and length by scanning all 13-bit values in increasing order. -/
def lookup_table (table_type length : Nat) : List Nat :=
  lutFirst ((List.range 8192).foldl (lutStep table_type)
    (List.replicate length 0, 0, length - 1))

/-- The 1287-entry table for 13-bit patterns with five set bits
(`_lookup_table(5, 1287)` in `encode`). -/
def lut5 : List Nat := lookup_table 5 1287

/-- The 78-entry table for 13-bit patterns with two set bits
(`_lookup_table(2, 78)` in `encode`). -/
def lut2 : List Nat := lookup_table 2 78

/-! Analysis of `lookup_table`.  A scanned value `count` is *effective* when
its bit count matches the table type and its 13-bit reversal is not smaller;
an effective value is either a *pair* value (reversal differs, filled forward
together with its reversal) or a *self* value (equal to its own reversal,
filled backward from the end). -/

/-- Scanned value inserted together with its distinct reversal. -/
def isPairCount (table_type c : Nat) : Bool :=
  let rev := rev13 c
  bitCount c == table_type && !(rev < c) && c != rev

/-- Scanned value equal to its own 13-bit reversal. -/
def isSelfCount (table_type c : Nat) : Bool :=
  let rev := rev13 c
  bitCount c == table_type && !(rev < c) && c == rev

/-- Pair values among `0, ..., n-1`, each followed by its reversal, in scan
order; this is the prefix of the table filled through `lut_lower`. -/
def pairsUpTo (table_type n : Nat) : List Nat :=
  (List.range n).flatMap
    (fun c => if isPairCount table_type c then [c, rev13 c] else [])

/-- Self-reciprocal values among `0, ..., n-1` in scan order; the table's
tail holds these in reverse. -/
def selfsUpTo (table_type n : Nat) : List Nat :=
  (List.range n).filter (fun c => isSelfCount table_type c)

/-! Step 1 of `encode`: convert data fields to binary. -/

/-- Routing code of step 1 of `encode`: the zip value plus a length-dependent
offset.  Python leaves `rc_val` unbound for any other length (a `NameError`),
modelled as `none`. -/
def routingCode (routing : List Char) : Option Nat :=
  if routing.length = 0 then some 0
  else if routing.length = 5 then some (strVal routing + 1)
  else if routing.length = 9 then some (strVal routing + 100001)
  else if routing.length = 11 then some (strVal routing + 1000100001)
  else none

/-- Step 1 of `encode`: fold the 20 tracking digits onto the routing code,
with base 10 everywhere except base 5 at the second digit.  Indexing
`tracking[0]` / `tracking[1]` fails (`IndexError`) on too-short strings. -/
def binaryCompose (imb : IntelligentMailBarcode) : Option Nat := do
  let rc0 ← routingCode imb.routing
  let d0 ← imb.tracking.get? 0
  let d1 ← imb.tracking.get? 1
  let rc1 := (rc0 * 10 + digitVal d0) * 5 + digitVal d1
  return (imb.tracking.drop 2).foldl (fun a c => a * 10 + digitVal c) rc1

/-! Step 2 of `encode`: 11-bit CRC on the composed binary. -/

/-- One iteration of the CRC inner loop: compare bit 10 of `fcs XOR data`,
shift (and conditionally fold in the generator polynomial `0x0f35`), mask to
11 bits, and shift the data comparator left. -/
def crcRound (st : Nat × Nat) : Nat × Nat :=
  let (fcs, data) := st
  ((if (fcs ^^^ data) &&& 0x400 ≠ 0 then ((fcs <<< 1) ^^^ 0x0f35) &&& 0x7ff
    else (fcs <<< 1) &&& 0x7ff),
   data <<< 1)

/-- Step 2 of `encode`: run 6 rounds on the top byte beyond the 96-bit
boundary (pre-shifted left by 5), then 8 rounds on each of the 12 payload
bytes, most significant first. -/
def computeFcs (rc_val : Nat) : Nat :=
  let st := ((List.range 6).foldl (fun st _ => crcRound st)
    (0x07ff, (rc_val >>> (12 * 8)) <<< 5))
  (List.range 12).foldl
    (fun fcs k =>
      ((List.range 8).foldl (fun st _ => crcRound st)
        (fcs, ((rc_val >>> ((12 - (k + 1)) * 8)) &&& 0xff) <<< 3)).1)
    st.1

/-! Step 3 of `encode`: codeword generation. -/

/-- Step 3 of `encode`: mixed-radix decomposition of `rc_val` into the ten
codewords `[A, B, C, D, E, F, G, H, I, J]`, dividing by 636 once and by 1365
eight times; `none` models the `assert 0 <= rc_val <= 658` failing. -/
def codewordGen (rc_val : Nat) : Option (List Nat) :=
  let cw_j := rc_val % 636
  let r1 := rc_val / 636
  let cw_i := r1 % 1365
  let r2 := r1 / 1365
  let cw_h := r2 % 1365
  let r3 := r2 / 1365
  let cw_g := r3 % 1365
  let r4 := r3 / 1365
  let cw_f := r4 % 1365
  let r5 := r4 / 1365
  let cw_e := r5 % 1365
  let r6 := r5 / 1365
  let cw_d := r6 % 1365
  let r7 := r6 / 1365
  let cw_c := r7 % 1365
  let r8 := r7 / 1365
  let cw_b := r8 % 1365
  let r9 := r8 / 1365
  if r9 ≤ 658 then
    some [r9, cw_b, cw_c, cw_d, cw_e, cw_f, cw_g, cw_h, cw_i, cw_j]
  else none

/-- Step 4 of `encode`: double codeword J, and add 659 to codeword A when
bit 10 of the FCS is set. -/
def modifyCodewords (fcs : Nat) : List Nat → List Nat
  | [cw_a, cw_b, cw_c, cw_d, cw_e, cw_f, cw_g, cw_h, cw_i, cw_j] =>
    [(if fcs >>> 10 &&& 1 ≠ 0 then cw_a + 659 else cw_a),
     cw_b, cw_c, cw_d, cw_e, cw_f, cw_g, cw_h, cw_i, cw_j * 2]
  | l => l

/-! Step 5 of `encode`: codeword to character conversion. -/

/-- Character lookup for one codeword: table 5 below 1287, table 2 up to
1364; the `codeword > 1364` branch (which only prints) is modelled as
failure, it is asserted unreachable by the source. -/
def cwToChar (cw : Nat) : Option Nat :=
  if cw ≤ 1286 then lut5.get? cw
  else if cw ≤ 1364 then lut2.get? (cw - 1287)
  else none

/-- The `char_list` loop of step 5: look each codeword up in turn. -/
def charsOfCodewords : List Nat → Option (List Nat)
  | [] => some []
  | cw :: rest =>
    match cwToChar cw, charsOfCodewords rest with
    | some c, some cs => some (c :: cs)
    | _, _ => none

/-- The inversion loop of step 5: character `i` is XORed with `0x1fff` when
bit `i` of the FCS is set (`i` counting from the given start index). -/
def invertChars (fcs : Nat) : Nat → List Nat → List Nat
  | _, [] => []
  | i, c :: cs =>
    (if fcs &&& (1 <<< i) ≠ 0 then c ^^^ 0x1fff else c) ::
      invertChars fcs (i + 1) cs

/-! Step 6 of `encode`: character to barcode conversion. -/

/-- The fixed 65-entry bar construction constant, copied verbatim: each entry
is a bar number, the descender character letter and bit, and the ascender
character letter and bit. -/
def BAR_CONSTRUCTION_TABLE : List String := [
  "1 H 2 E 3", "2 B 10 A 0", "3 J 12 C 8", "4 F 5 G 11", "5 I 9 D 1",
  "6 A 1 F 12", "7 C 5 B 8", "8 E 4 J 11", "9 G 3 I 10", "10 D 9 H 6",
  "11 F 11 B 4", "12 I 5 C 12", "13 J 10 A 2", "14 H 1 G 7", "15 D 6 E 9",
  "16 A 3 I 6", "17 G 4 C 7", "18 B 1 J 9", "19 H 10 F 2", "20 E 0 D 8",
  "21 G 2 A 4", "22 I 11 B 0", "23 J 8 D 12", "24 C 6 H 7", "25 F 1 E 10",
  "26 B 12 G 9", "27 H 3 I 0", "28 F 8 J 7", "29 E 6 C 10", "30 D 4 A 5",
  "31 I 4 F 7", "32 H 11 B 9", "33 G 0 J 6", "34 A 6 E 8", "35 C 1 D 2",
  "36 F 9 I 12", "37 E 11 G 1", "38 J 5 H 4", "39 D 3 B 2", "40 A 7 C 0",
  "41 B 3 E 1", "42 G 10 D 5", "43 I 7 J 4", "44 C 11 F 6", "45 A 8 H 12",
  "46 E 2 I 1", "47 F 10 D 0", "48 J 3 A 9", "49 G 5 C 4", "50 H 8 B 7",
  "51 F 0 E 5", "52 C 3 A 10", "53 G 12 J 2", "54 D 11 B 6", "55 I 8 H 9",
  "56 F 4 A 11", "57 B 5 C 2", "58 J 1 E 12", "59 I 3 G 6", "60 H 0 D 7",
  "61 E 7 H 5", "62 A 12 B 11", "63 C 9 J 0", "64 G 8 F 3", "65 D 10 I 2"]

/-- Parsed form of one `BAR_CONSTRUCTION_TABLE` entry: descender character
index (0 for A through 9 for J), descender bit, ascender character index,
ascender bit, as used after the `ord` and `int` conversions. -/
def parseBarEntry (element : String) : Option (Nat × Nat × Nat × Nat) :=
  match element.splitOn " " with
  | [_, desc_char, desc_bit, asc_char, asc_bit] =>
    match desc_char.toList, asc_char.toList, desc_bit.toNat?, asc_bit.toNat? with
    | [dc], [ac], some db, some ab => some (dc.toNat - 65, db, ac.toNat - 65, ab)
    | _, _, _, _ => none
  | _ => none

/-- Models `_bar_construction_table` composed with the `ord`/`int`
conversions done in step 6 of `encode`. -/
def bar_construction_table : Option (List (Nat × Nat × Nat × Nat)) :=
  BAR_CONSTRUCTION_TABLE.foldr
    (fun e acc => do pure ((← parseBarEntry e) :: (← acc))) (some [])

/-- One bar of step 6: test the mapped ascender and descender bits and pick
the bar symbol (Full, Ascender only, Descender only, or Tracking). -/
def barChar (char_list : List Nat) (bm : Nat × Nat × Nat × Nat) : Option Char := do
  let asc_val ← char_list.get? bm.2.2.1
  let desc_val ← char_list.get? bm.1
  let asc := asc_val &&& (1 <<< bm.2.2.2)
  let desc := desc_val &&& (1 <<< bm.2.1)
  pure (if asc ≠ 0 ∧ desc ≠ 0 then 'F'
        else if asc ≠ 0 then 'A'
        else if desc ≠ 0 then 'D'
        else 'T')

/-- The bar loop of step 6, one output symbol per table entry. -/
def barsOf (char_list : List Nat) : List (Nat × Nat × Nat × Nat) → Option (List Char)
  | [] => some []
  | bm :: rest =>
    match barChar char_list bm, barsOf char_list rest with
    | some c, some cs => some (c :: cs)
    | _, _ => none

/-- Models `encode`: the full pipeline from a record to the 65-symbol
barcode string; `none` collects every internal failure mode (all asserted
or implicitly assumed unreachable for validated records). -/
def encode (imb : IntelligentMailBarcode) : Option (List Char) := do
  let rc_val ← binaryCompose imb
  let fcs := computeFcs rc_val
  let cws ← codewordGen rc_val
  let char_list0 ← charsOfCodewords (modifyCodewords fcs cws)
  let char_list := invertChars fcs 0 char_list0
  let bar_table ← bar_construction_table
  barsOf char_list bar_table

end USPSIMB

namespace USPSIMB

open IntelligentMailBarcode

/-! Basic facts about digit characters and digit strings. -/

theorem isDigit_iff {c : Char} : c.isDigit = true ↔ 48 ≤ c.toNat ∧ c.toNat ≤ 57 := by
  simp only [Char.isDigit, Bool.and_eq_true, decide_eq_true_eq]
  constructor
  · rintro ⟨h1, h2⟩
    exact ⟨h1, h2⟩
  · rintro ⟨h1, h2⟩
    exact ⟨h1, h2⟩

theorem digitVal_le_nine {c : Char} (h : c.isDigit = true) : digitVal c ≤ 9 := by
  obtain ⟨h1, h2⟩ := isDigit_iff.mp h
  unfold digitVal
  omega

theorem char_eq_of_toNat {c d : Char} (h : c.toNat = d.toNat) : c = d := by
  apply Char.ext
  apply UInt32.ext
  exact h

theorem strVal_aux (s : List Char) :
    ∀ a : Nat, s.foldl (fun a c => a * 10 + digitVal c) a
      = a * 10 ^ s.length + strVal s := by
  induction s with
  | nil => intro a; simp [strVal]
  | cons c cs ih =>
    intro a
    have h1 := ih (a * 10 + digitVal c)
    have h2 := ih (digitVal c)
    simp only [List.foldl_cons, List.length_cons, strVal, Nat.zero_mul,
      Nat.zero_add] at h1 h2 ⊢
    rw [h1, h2]
    ring

theorem strVal_cons (c : Char) (cs : List Char) :
    strVal (c :: cs) = digitVal c * 10 ^ cs.length + strVal cs := by
  have := strVal_aux cs (digitVal c)
  simpa [strVal] using this

theorem strVal_lt (s : List Char) (h : ∀ c ∈ s, c.isDigit = true) :
    strVal s < 10 ^ s.length := by
  induction s with
  | nil => simp [strVal]
  | cons c cs ih =>
    have hc : digitVal c ≤ 9 := digitVal_le_nine (h c (by simp))
    have hcs : strVal cs < 10 ^ cs.length := ih (fun x hx => h x (by simp [hx]))
    rw [strVal_cons]
    have : 10 ^ (c :: cs).length = 10 * 10 ^ cs.length := by
      simp [pow_succ]; ring
    rw [List.length_cons, pow_succ]
    nlinarith

theorem strVal_append (s t : List Char) :
    strVal (s ++ t) = strVal s * 10 ^ t.length + strVal t := by
  unfold strVal
  rw [List.foldl_append]
  have := strVal_aux t (List.foldl (fun a c => a * 10 + digitVal c) 0 s)
  simpa [strVal] using this

/-! Claims C10, C4, C5: behaviour of the field validation and the splitter. -/

/-- C10: for every input string of length less than 6, `from_t_and_r` fails
with an out-of-range index access when inspecting the character at offset 5,
rather than with a field validation error. -/
theorem c10_short_input_index_error (s : List Char) (h : s.length < 6) :
    from_t_and_r s = .error .indexError := by
  have h5 : s[5]? = none := by
    rw [List.getElem?_eq_none_iff]
    omega
  simp [from_t_and_r, h5]

theorem c10_short_input_index_error_witness :
    ("123".toList.length < 6) ∧ from_t_and_r "123".toList = .error .indexError :=
  ⟨by decide, c10_short_input_index_error "123".toList (by decide)⟩

/-- C4 (code bug): the constructor accepts a 1-digit `barcode_id`, although
its own assertion message says the barcode id must be 2-digit, so the
tracking projection is not always 20 digits long. -/
theorem c4_one_digit_barcode_id_accepted :
    valid ⟨"1".toList, "123".toList, "123456".toList, "123456789".toList, []⟩ = true ∧
    (tracking ⟨"1".toList, "123".toList, "123456".toList, "123456789".toList, []⟩).length ≠ 20 := by
  decide

/-- C5 counterexample: a 6-digit `mailer_id` of value 900000, inside the
claimed range `[0, 999999]`, is rejected even though every other field
satisfies its invariant (witnessed by the same record with mailer 899999
being accepted). -/
theorem c5_counterexample :
    valid ⟨"01".toList, "700".toList, "900000".toList, "123456789".toList, []⟩ = false ∧
    strVal "900000".toList ≤ 999999 ∧
    valid ⟨"01".toList, "700".toList, "899999".toList, "123456789".toList, []⟩ = true := by
  decide

/-- C5 (amended): when every other field satisfies its invariant and
`mailer_id` has 6 digits, construction succeeds exactly when the mailer id's
numeric value lies in `[0, 899999]` (not `[0, 999999]`). -/
theorem c5_six_digit_mailer_range (r : IntelligentMailBarcode)
    (hbd : isdigit r.barcode_id = true) (hsd : isdigit r.service_type_id = true)
    (hmd : isdigit r.mailer_id = true) (hsn : isdigit r.serial_num = true)
    (hzd : isdigit r.deliv_zip = true ∨ r.deliv_zip.length = 0)
    (hb1 : strVal r.barcode_id % 10 ≤ 4) (hb2 : strVal r.barcode_id ≤ 99)
    (hst : strVal r.service_type_id ≤ 999)
    (hm6 : r.mailer_id.length = 6) (hs9 : r.serial_num.length = 9)
    (hz : r.deliv_zip.length = 0 ∨ r.deliv_zip.length = 5 ∨
          r.deliv_zip.length = 9 ∨ r.deliv_zip.length = 11) :
    valid r = true ↔ strVal r.mailer_id ≤ 899999 := by
  rcases hzd with hzd | hzd <;> rcases hz with hz | hz | hz | hz <;>
    simp [valid, hbd, hsd, hmd, hsn, hzd, hb1, hb2, hst, hm6, hs9, hz]

theorem c5_six_digit_mailer_range_witness :
    valid ⟨"01".toList, "700".toList, "123456".toList, "123456789".toList, []⟩ = true ↔
      strVal "123456".toList ≤ 899999 :=
  c5_six_digit_mailer_range
    ⟨"01".toList, "700".toList, "123456".toList, "123456789".toList, []⟩
    (by decide) (by decide) (by decide) (by decide) (Or.inr (by decide))
    (by decide) (by decide) (by decide) (by decide) (by decide)
    (Or.inl (by decide))

/-! Structure of `lookup_table`: the scan fills pair values forward from
index 0 and self-reciprocal values backward from the last index. -/

theorem setNth_length (l : List Nat) (i v : Nat) :
    (setNth l i v).length = l.length := by
  induction l generalizing i with
  | nil => simp [setNth]
  | cons x xs ih =>
    cases i with
    | zero => simp [setNth]
    | succ n => simp [setNth, ih]

theorem setNth_append (A B : List Nat) (k v : Nat) :
    setNth (A ++ B) (A.length + k) v = A ++ setNth B k v := by
  induction A with
  | nil => simp
  | cons a A ih =>
    have : (a :: A).length + k = (A.length + k) + 1 := by
      simp [Nat.succ_add]
    rw [this]
    simpa [setNth] using ih

theorem setNth_replicate_head (m : Nat) (x v : Nat) (B : List Nat)
    (h : 1 ≤ m) :
    setNth (List.replicate m x ++ B) 0 v = v :: (List.replicate (m - 1) x ++ B) := by
  cases m with
  | zero => omega
  | succ m => simp [List.replicate_succ, setNth]

theorem setNth_replicate_last (m : Nat) (x v : Nat) (B : List Nat)
    (h : 1 ≤ m) :
    setNth (List.replicate m x ++ B) (m - 1) v
      = List.replicate (m - 1) x ++ (v :: B) := by
  induction m with
  | zero => omega
  | succ m ih =>
    cases m with
    | zero => simp [List.replicate_succ, setNth]
    | succ k =>
      have h2 : 1 ≤ k + 1 := by omega
      have := ih h2
      simp only [List.replicate_succ, List.cons_append, Nat.add_sub_cancel] at this ⊢
      simp only [setNth]
      simp [this]

theorem pairsUpTo_succ (table_type n : Nat) :
    pairsUpTo table_type (n + 1) = pairsUpTo table_type n ++
      (if isPairCount table_type n then [n, rev13 n] else []) := by
  unfold pairsUpTo
  rw [List.range_succ]
  simp

theorem selfsUpTo_succ (table_type n : Nat) :
    selfsUpTo table_type (n + 1) = selfsUpTo table_type n ++
      (if isSelfCount table_type n then [n] else []) := by
  unfold selfsUpTo
  cases h : isSelfCount table_type n <;>
    rw [List.range_succ, List.filter_append] <;>
      simp [List.filter_cons, h]

theorem sizes_mono (table_type : Nat) {m n : Nat} (h : m ≤ n) :
    (pairsUpTo table_type m).length + (selfsUpTo table_type m).length ≤
      (pairsUpTo table_type n).length + (selfsUpTo table_type n).length := by
  induction n with
  | zero =>
    have : m = 0 := by omega
    simp [this]
  | succ n ih =>
    rcases Nat.lt_or_ge m (n + 1) with hm | hm
    · have h1 := ih (by omega)
      rw [pairsUpTo_succ, selfsUpTo_succ]
      simp only [List.length_append]
      omega
    · have : m = n + 1 := by omega
      simp [this]

theorem lutStep_skip1 {table_type count : Nat} (st : List Nat × Nat × Nat)
    (h : bitCount count ≠ table_type) : lutStep table_type st count = st := by
  obtain ⟨lut, lo, hi⟩ := st
  simp [lutStep, h]

theorem lutStep_skip2 {table_type count : Nat} (st : List Nat × Nat × Nat)
    (h1 : bitCount count = table_type) (h2 : rev13 count < count) :
    lutStep table_type st count = st := by
  obtain ⟨lut, lo, hi⟩ := st
  rw [lutStep]
  rw [if_neg (by omega), if_pos h2]

theorem lutStep_self {table_type count : Nat} (lut : List Nat) (lo hi : Nat)
    (h1 : bitCount count = table_type) (h2 : ¬ rev13 count < count)
    (h3 : count = rev13 count) :
    lutStep table_type (lut, lo, hi) count = (setNth lut hi count, lo, hi - 1) := by
  rw [lutStep]
  rw [if_neg (by omega), if_neg h2, if_pos h3]

theorem lutStep_pair {table_type count : Nat} (lut : List Nat) (lo hi : Nat)
    (h1 : bitCount count = table_type) (h2 : ¬ rev13 count < count)
    (h3 : count ≠ rev13 count) :
    lutStep table_type (lut, lo, hi) count
      = (setNth (setNth lut lo count) (lo + 1) (rev13 count), lo + 2, hi) := by
  rw [lutStep]
  rw [if_neg (by omega), if_neg h2, if_neg h3]

theorem isPairCount_true {table_type c : Nat} (h1 : bitCount c = table_type)
    (h2 : ¬ rev13 c < c) (h3 : c ≠ rev13 c) :
    isPairCount table_type c = true := by
  simp only [isPairCount]
  rw [h1, decide_eq_false h2]
  simp only [beq_self_eq_true, Bool.not_false, Bool.true_and, bne_iff_ne, ne_eq]
  exact h3

theorem isPairCount_false_of_ne {table_type c : Nat}
    (h : bitCount c ≠ table_type) : isPairCount table_type c = false := by
  simp only [isPairCount, Bool.and_eq_false_iff]
  left; left
  simpa using h

theorem isPairCount_false_of_lt {table_type c : Nat}
    (h : rev13 c < c) : isPairCount table_type c = false := by
  simp only [isPairCount, Bool.and_eq_false_iff]
  left; right
  simpa using h

theorem isPairCount_false_of_self {table_type c : Nat}
    (h : c = rev13 c) : isPairCount table_type c = false := by
  simp only [isPairCount, Bool.and_eq_false_iff]
  right
  simpa using h

theorem isSelfCount_true {table_type c : Nat} (h1 : bitCount c = table_type)
    (h2 : ¬ rev13 c < c) (h3 : c = rev13 c) :
    isSelfCount table_type c = true := by
  simp only [isSelfCount]
  rw [h1, decide_eq_false h2]
  simp only [beq_self_eq_true, Bool.not_false, Bool.true_and, beq_iff_eq]
  exact h3

theorem isSelfCount_false_of_ne {table_type c : Nat}
    (h : bitCount c ≠ table_type) : isSelfCount table_type c = false := by
  simp only [isSelfCount, Bool.and_eq_false_iff]
  left; left
  simpa using h

theorem isSelfCount_false_of_lt {table_type c : Nat}
    (h : rev13 c < c) : isSelfCount table_type c = false := by
  simp only [isSelfCount, Bool.and_eq_false_iff]
  left; right
  simpa using h

theorem isSelfCount_false_of_pair {table_type c : Nat}
    (h : c ≠ rev13 c) : isSelfCount table_type c = false := by
  simp only [isSelfCount, Bool.and_eq_false_iff]
  right
  simpa using h

theorem setNth_append_zero (A B : List Nat) (v : Nat) :
    setNth (A ++ B) A.length v = A ++ setNth B 0 v := by
  have := setNth_append A B 0 v
  simpa using this

/-- Closed form of the `_lookup_table` scan after `n` of the 8192 iterations:
pair values fill the table forward from index 0, self-reciprocal values fill
it backward from the last index, and the two fill pointers track the region
lengths. -/
theorem lookupState (table_type len : Nat)
    (hcap : (pairsUpTo table_type 8192).length + (selfsUpTo table_type 8192).length ≤ len) :
    ∀ n, n ≤ 8192 →
      (List.range n).foldl (lutStep table_type) (List.replicate len 0, 0, len - 1)
        = (pairsUpTo table_type n ++
            (List.replicate
              (len - (pairsUpTo table_type n).length - (selfsUpTo table_type n).length) 0 ++
             (selfsUpTo table_type n).reverse),
           (pairsUpTo table_type n).length,
           len - 1 - (selfsUpTo table_type n).length) := by
  intro n
  induction n with
  | zero => intro _; simp [pairsUpTo, selfsUpTo]
  | succ n ih =>
    intro hn
    rw [List.range_succ, List.foldl_append, ih (by omega)]
    simp only [List.foldl_cons, List.foldl_nil]
    have hcapn1 : (pairsUpTo table_type (n + 1)).length +
        (selfsUpTo table_type (n + 1)).length ≤ len :=
      le_trans (sizes_mono table_type hn) hcap
    by_cases hbc : bitCount n = table_type
    · by_cases hrev : rev13 n < n
      · -- skipped because the reversal is smaller: nothing inserted
        have hP1 : pairsUpTo table_type (n + 1) = pairsUpTo table_type n := by
          rw [pairsUpTo_succ, isPairCount_false_of_lt hrev]
          simp
        have hS1 : selfsUpTo table_type (n + 1) = selfsUpTo table_type n := by
          rw [selfsUpTo_succ, isSelfCount_false_of_lt hrev]
          simp
        rw [lutStep_skip2 _ hbc hrev, hP1, hS1]
      · by_cases heq : n = rev13 n
        · -- self-reciprocal value: written at the upper pointer
          have hP1 : pairsUpTo table_type (n + 1) = pairsUpTo table_type n := by
            rw [pairsUpTo_succ, isPairCount_false_of_self heq]
            simp
          have hS1 : selfsUpTo table_type (n + 1) = selfsUpTo table_type n ++ [n] := by
            rw [selfsUpTo_succ, isSelfCount_true hbc hrev heq]
            simp
          rw [lutStep_self _ _ _ hbc hrev heq, hP1, hS1]
          have hcap2 : (pairsUpTo table_type n).length +
              (selfsUpTo table_type n).length + 1 ≤ len := by
            rw [hP1, hS1] at hcapn1
            simp only [List.length_append, List.length_cons, List.length_nil] at hcapn1
            omega
          rw [Prod.mk.injEq, Prod.mk.injEq]
          refine ⟨?_, rfl, ?_⟩
          · have hidx : len - 1 - (selfsUpTo table_type n).length
                = (pairsUpTo table_type n).length +
                  (len - (pairsUpTo table_type n).length -
                   (selfsUpTo table_type n).length - 1) := by
              omega
            rw [hidx, setNth_append, setNth_replicate_last _ _ _ _ (by omega)]
            rw [List.reverse_append]
            simp only [List.reverse_cons, List.reverse_nil, List.nil_append,
              List.singleton_append, List.length_append, List.length_cons,
              List.length_nil]
            have hm : len - (pairsUpTo table_type n).length -
                ((selfsUpTo table_type n).length + 1)
                = len - (pairsUpTo table_type n).length -
                  (selfsUpTo table_type n).length - 1 := by
              omega
            rw [hm]
          · simp only [List.length_append, List.length_cons, List.length_nil]
            omega
        · -- pair value: value and reversal written at the lower pointer
          have hP1 : pairsUpTo table_type (n + 1)
              = pairsUpTo table_type n ++ [n, rev13 n] := by
            rw [pairsUpTo_succ, isPairCount_true hbc hrev heq]
            simp
          have hS1 : selfsUpTo table_type (n + 1) = selfsUpTo table_type n := by
            rw [selfsUpTo_succ, isSelfCount_false_of_pair heq]
            simp
          rw [lutStep_pair _ _ _ hbc hrev heq, hP1, hS1]
          have hcap2 : (pairsUpTo table_type n).length +
              (selfsUpTo table_type n).length + 2 ≤ len := by
            rw [hP1, hS1] at hcapn1
            simp only [List.length_append, List.length_cons, List.length_nil] at hcapn1
            omega
          rw [Prod.mk.injEq, Prod.mk.injEq]
          refine ⟨?_, ?_, rfl⟩
          · rw [setNth_append_zero, setNth_replicate_head _ _ _ _ (by omega)]
            rw [List.append_cons]
            have hidx2 : (pairsUpTo table_type n).length + 1
                = (pairsUpTo table_type n ++ [n]).length := by
              simp
            rw [hidx2, setNth_append_zero, setNth_replicate_head _ _ _ _ (by omega)]
            have hm : len - (pairsUpTo table_type n ++ [n, rev13 n]).length -
                (selfsUpTo table_type n).length
                = len - (pairsUpTo table_type n).length -
                  (selfsUpTo table_type n).length - 1 - 1 := by
              simp only [List.length_append, List.length_cons, List.length_nil]
              omega
            rw [hm]
            simp
          · simp
    · -- bit count mismatch: nothing inserted
      have hP1 : pairsUpTo table_type (n + 1) = pairsUpTo table_type n := by
        rw [pairsUpTo_succ, isPairCount_false_of_ne hbc]
        simp
      have hS1 : selfsUpTo table_type (n + 1) = selfsUpTo table_type n := by
        rw [selfsUpTo_succ, isSelfCount_false_of_ne hbc]
        simp
      rw [lutStep_skip1 _ hbc, hP1, hS1]

set_option maxRecDepth 40000 in
theorem pairs5_length : (pairsUpTo 5 8192).length = 1272 := by decide!

set_option maxRecDepth 40000 in
theorem selfs5_length : (selfsUpTo 5 8192).length = 15 := by decide!

set_option maxRecDepth 40000 in
theorem pairs2_length : (pairsUpTo 2 8192).length = 72 := by decide!

set_option maxRecDepth 40000 in
theorem selfs2_length : (selfsUpTo 2 8192).length = 6 := by decide!

set_option maxRecDepth 40000 in
theorem rev13_scan : (List.range 8192).all
    (fun c => !(bitCount c == 5 || bitCount c == 2) ||
      (let r := rev13 c
       rev13 r == c && decide (r < 8192) && bitCount r == bitCount c)) = true := by
  decide!

theorem rev13_scan_spec {c : Nat} (h : c < 8192)
    (hbc : bitCount c = 5 ∨ bitCount c = 2) :
    rev13 (rev13 c) = c ∧ rev13 c < 8192 ∧ bitCount (rev13 c) = bitCount c := by
  have hs := List.all_eq_true.mp rev13_scan c (List.mem_range.mpr h)
  simp only [Bool.or_eq_true, Bool.not_eq_true', Bool.and_eq_true, beq_iff_eq,
    decide_eq_true_eq, Bool.or_eq_false_iff, beq_eq_false_iff_ne, ne_eq] at hs
  rcases hs with ⟨hs1, hs2⟩ | hs
  · rcases hbc with hbc | hbc
    · exact absurd hbc hs1
    · exact absurd hbc hs2
  · exact ⟨hs.1.1, hs.1.2, hs.2⟩

theorem rev13_invol {c : Nat} (h : c < 8192)
    (hbc : bitCount c = 5 ∨ bitCount c = 2) : rev13 (rev13 c) = c :=
  (rev13_scan_spec h hbc).1

theorem rev13_lt {c : Nat} (h : c < 8192)
    (hbc : bitCount c = 5 ∨ bitCount c = 2) : rev13 c < 8192 :=
  (rev13_scan_spec h hbc).2.1

theorem bitCount_rev13 {c : Nat} (h : c < 8192)
    (hbc : bitCount c = 5 ∨ bitCount c = 2) : bitCount (rev13 c) = bitCount c :=
  (rev13_scan_spec h hbc).2.2

theorem mem_pairsUpTo {table_type n v : Nat} :
    v ∈ pairsUpTo table_type n ↔
      ∃ c, c < n ∧ isPairCount table_type c = true ∧ (v = c ∨ v = rev13 c) := by
  unfold pairsUpTo
  rw [List.mem_flatMap]
  constructor
  · rintro ⟨c, hc, hv⟩
    rw [List.mem_range] at hc
    by_cases h : isPairCount table_type c = true
    · rw [if_pos h] at hv
      simp only [List.mem_cons, List.not_mem_nil, or_false] at hv
      exact ⟨c, hc, h, hv⟩
    · rw [if_neg h] at hv
      simp at hv
  · rintro ⟨c, hc, h, hv⟩
    refine ⟨c, List.mem_range.mpr hc, ?_⟩
    rw [if_pos h]
    simpa using hv

theorem mem_selfsUpTo {table_type n v : Nat} :
    v ∈ selfsUpTo table_type n ↔ v < n ∧ isSelfCount table_type v = true := by
  unfold selfsUpTo
  rw [List.mem_filter, List.mem_range]

theorem isPairCount_spec {table_type c : Nat} (h : isPairCount table_type c = true) :
    bitCount c = table_type ∧ c < rev13 c := by
  unfold isPairCount at h
  simp only [Bool.and_eq_true, beq_iff_eq, bne_iff_ne, ne_eq, Bool.not_eq_true',
    decide_eq_false_iff_not, not_lt] at h
  obtain ⟨⟨h1, h2⟩, h3⟩ := h
  exact ⟨h1, lt_of_le_of_ne h2 (by omega)⟩

theorem isSelfCount_spec {table_type c : Nat} (h : isSelfCount table_type c = true) :
    bitCount c = table_type ∧ rev13 c = c := by
  unfold isSelfCount at h
  simp only [Bool.and_eq_true, beq_iff_eq, Bool.not_eq_true',
    decide_eq_false_iff_not, not_lt] at h
  exact ⟨h.1.1, h.2.symm⟩

/-- Every element of one of the two assembled table images is a 13-bit value
with the table's bit count. -/
theorem mem_parts {table_type v : Nat} (htt : table_type = 5 ∨ table_type = 2)
    (hv : v ∈ pairsUpTo table_type 8192 ++ (selfsUpTo table_type 8192).reverse) :
    v < 8192 ∧ bitCount v = table_type := by
  rw [List.mem_append, List.mem_reverse] at hv
  rcases hv with hv | hv
  · obtain ⟨c, hc, hp, hvc⟩ := mem_pairsUpTo.mp hv
    obtain ⟨hbc, _⟩ := isPairCount_spec hp
    have hbc2 : bitCount c = 5 ∨ bitCount c = 2 := by omega
    rcases hvc with rfl | rfl
    · exact ⟨hc, hbc⟩
    · exact ⟨rev13_lt hc hbc2, by rw [bitCount_rev13 hc hbc2, hbc]⟩
  · obtain ⟨hc, hs⟩ := mem_selfsUpTo.mp hv
    exact ⟨hc, (isSelfCount_spec hs).1⟩

theorem pairs_not_selfrec {table_type v : Nat}
    (htt : table_type = 5 ∨ table_type = 2)
    (hv : v ∈ pairsUpTo table_type 8192) : rev13 v ≠ v := by
  obtain ⟨c, hc, hp, hvc⟩ := mem_pairsUpTo.mp hv
  obtain ⟨hbc, hlt⟩ := isPairCount_spec hp
  have hbc2 : bitCount c = 5 ∨ bitCount c = 2 := by omega
  rcases hvc with rfl | rfl
  · omega
  · rw [rev13_invol hc hbc2]
    omega

theorem selfs_selfrec {table_type v : Nat}
    (hv : v ∈ (selfsUpTo table_type 8192).reverse) : rev13 v = v := by
  rw [List.mem_reverse] at hv
  exact (isSelfCount_spec (mem_selfsUpTo.mp hv).2).2

theorem pairs_nodup (table_type : Nat) (htt : table_type = 5 ∨ table_type = 2) :
    (pairsUpTo table_type 8192).Nodup := by
  unfold pairsUpTo
  rw [List.nodup_flatMap]
  constructor
  · intro c hc
    by_cases h : isPairCount table_type c = true
    · rw [if_pos h]
      obtain ⟨_, hlt⟩ := isPairCount_spec h
      simp only [List.nodup_cons, List.mem_singleton, List.nodup_nil, and_true,
        List.not_mem_nil, not_false_iff]
      omega
    · rw [if_neg h]
      exact List.nodup_nil
  · rw [List.pairwise_iff_getElem]
    intro i j hi hj hlt
    simp only [List.length_range] at hi hj
    rw [List.getElem_range, List.getElem_range]
    intro v hvi hvj
    dsimp only at hvi hvj
    by_cases hpi : isPairCount table_type i = true
    · by_cases hpj : isPairCount table_type j = true
      · rw [if_pos hpi] at hvi
        rw [if_pos hpj] at hvj
        simp only [List.mem_cons, List.not_mem_nil, or_false] at hvi hvj
        obtain ⟨hbi, hi2⟩ := isPairCount_spec hpi
        obtain ⟨hbj, hj2⟩ := isPairCount_spec hpj
        have hbi2 : bitCount i = 5 ∨ bitCount i = 2 := by omega
        have hbj2 : bitCount j = 5 ∨ bitCount j = 2 := by omega
        rcases hvi with h1 | h1 <;> rcases hvj with h2 | h2
        · omega
        · -- v is i yet also the reversal of j
          have e1 : rev13 v = j := by rw [h2, rev13_invol hj hbj2]
          rw [h1] at e1 h2
          omega
        · -- v is the reversal of i yet also j
          have e1 : rev13 v = i := by rw [h1, rev13_invol hi hbi2]
          rw [h2] at e1 h1
          omega
        · -- equal reversals force equal indices
          have e1 : i = j := by
            have h3 : rev13 (rev13 i) = rev13 (rev13 j) := by rw [← h1, ← h2]
            rwa [rev13_invol hi hbi2, rev13_invol hj hbj2] at h3
          omega
      · rw [if_neg hpj] at hvj
        simp at hvj
    · rw [if_neg hpi] at hvi
      simp at hvi

theorem parts_nodup (table_type : Nat) (htt : table_type = 5 ∨ table_type = 2) :
    (pairsUpTo table_type 8192 ++ (selfsUpTo table_type 8192).reverse).Nodup := by
  rw [List.nodup_append]
  refine ⟨pairs_nodup table_type htt, ?_, ?_⟩
  · rw [List.nodup_reverse]
    exact (List.nodup_range 8192).filter _
  · intro v hv hv'
    have h1 := pairs_not_selfrec htt hv
    have h2 := selfs_selfrec hv'
    exact h1 h2

/-- Fully filled table: when the pair and self counts add up to the table
length, the scan leaves no zero slot and the table is the pair prefix
followed by the reversed self values. -/
theorem lookup_table_closed (table_type len pl sl : Nat)
    (hp : (pairsUpTo table_type 8192).length = pl)
    (hsl : (selfsUpTo table_type 8192).length = sl)
    (hlen : pl + sl = len) :
    lookup_table table_type len
      = pairsUpTo table_type 8192 ++ (selfsUpTo table_type 8192).reverse := by
  have hcap : (pairsUpTo table_type 8192).length +
      (selfsUpTo table_type 8192).length ≤ len := by
    rw [hp, hsl]
    omega
  have h := lookupState table_type len hcap 8192 (by omega)
  have h2 := congrArg lutFirst h
  have h3 : lookup_table table_type len
      = lutFirst ((List.range 8192).foldl (lutStep table_type)
        (List.replicate len 0, 0, len - 1)) := rfl
  rw [h3, h2]
  have hmid : len - (pairsUpTo table_type 8192).length -
      (selfsUpTo table_type 8192).length = 0 := by
    rw [hp, hsl]
    omega
  rw [hmid]
  simp [lutFirst]

theorem lut5_eq : lut5 = pairsUpTo 5 8192 ++ (selfsUpTo 5 8192).reverse :=
  lookup_table_closed 5 1287 1272 15 pairs5_length selfs5_length rfl

theorem lut2_eq : lut2 = pairsUpTo 2 8192 ++ (selfsUpTo 2 8192).reverse :=
  lookup_table_closed 2 78 72 6 pairs2_length selfs2_length rfl

theorem lut5_length : lut5.length = 1287 := by
  rw [lut5_eq]
  simp [pairs5_length, selfs5_length]

theorem lut2_length : lut2.length = 78 := by
  rw [lut2_eq]
  simp [pairs2_length, selfs2_length]

theorem parts_rev_closed {table_type v : Nat}
    (htt : table_type = 5 ∨ table_type = 2)
    (hv : v ∈ pairsUpTo table_type 8192 ++ (selfsUpTo table_type 8192).reverse)
    (hne : rev13 v ≠ v) :
    rev13 v ∈ pairsUpTo table_type 8192 ++ (selfsUpTo table_type 8192).reverse := by
  rw [List.mem_append] at hv ⊢
  rcases hv with hv | hv
  · obtain ⟨c, hc, hp, hvc⟩ := mem_pairsUpTo.mp hv
    have hbc2 : bitCount c = 5 ∨ bitCount c = 2 := by
      have := (isPairCount_spec hp).1
      omega
    left
    rcases hvc with h1 | h1
    · rw [h1]
      exact mem_pairsUpTo.mpr ⟨c, hc, hp, Or.inr rfl⟩
    · rw [h1, rev13_invol hc hbc2]
      exact mem_pairsUpTo.mpr ⟨c, hc, hp, Or.inl rfl⟩
  · exact absurd (selfs_selfrec hv) hne

theorem parts_selfrec_tail (table_type i j : Nat)
    (htt : table_type = 5 ∨ table_type = 2) (hij : i ≤ j)
    (hj : j < (pairsUpTo table_type 8192).length + (selfsUpTo table_type 8192).length)
    (hsel : rev13 ((pairsUpTo table_type 8192 ++
        (selfsUpTo table_type 8192).reverse).getD i 0)
      = (pairsUpTo table_type 8192 ++ (selfsUpTo table_type 8192).reverse).getD i 0) :
    rev13 ((pairsUpTo table_type 8192 ++ (selfsUpTo table_type 8192).reverse).getD j 0)
      = (pairsUpTo table_type 8192 ++ (selfsUpTo table_type 8192).reverse).getD j 0 := by
  by_cases hi : i < (pairsUpTo table_type 8192).length
  · exfalso
    rw [List.getD_append _ _ _ _ hi] at hsel
    have hmem : (pairsUpTo table_type 8192).getD i 0 ∈ pairsUpTo table_type 8192 := by
      rw [List.getD_eq_getElem _ _ hi]
      exact List.getElem_mem _
    exact pairs_not_selfrec htt hmem hsel
  · rw [List.getD_append_right _ _ _ _ (by omega)]
    have hlen : j - (pairsUpTo table_type 8192).length
        < (selfsUpTo table_type 8192).reverse.length := by
      rw [List.length_reverse]
      omega
    rw [List.getD_eq_getElem _ _ hlen]
    exact selfs_selfrec (List.getElem_mem _)

/-- C6: the 5-bit table has exactly 1287 entries, each a 13-bit value with
bit count 5, pairwise distinct; the 2-bit table has exactly 78 entries, each
13-bit with bit count 2, all distinct; and the two tables share no value. -/
theorem c6_lookup_table_shapes :
    lut5.length = 1287 ∧ (∀ v ∈ lut5, v < 8192 ∧ bitCount v = 5) ∧ lut5.Nodup ∧
    lut2.length = 78 ∧ (∀ v ∈ lut2, v < 8192 ∧ bitCount v = 2) ∧ lut2.Nodup ∧
    (∀ v ∈ lut5, v ∉ lut2) := by
  refine ⟨lut5_length, ?_, ?_, lut2_length, ?_, ?_, ?_⟩
  · intro v hv
    rw [lut5_eq] at hv
    exact mem_parts (Or.inl rfl) hv
  · rw [lut5_eq]
    exact parts_nodup 5 (Or.inl rfl)
  · intro v hv
    rw [lut2_eq] at hv
    exact mem_parts (Or.inr rfl) hv
  · rw [lut2_eq]
    exact parts_nodup 2 (Or.inr rfl)
  · intro v hv hv2
    rw [lut5_eq] at hv
    rw [lut2_eq] at hv2
    have h5 := (mem_parts (Or.inl rfl) hv).2
    have h2 := (mem_parts (Or.inr rfl) hv2).2
    omega

/-- C7: in each table, the 13-bit reversal of every non-self-reciprocal entry
also appears in the same table, and the self-reciprocal entries occupy a
suffix of the table (they appear only in the backward-filled tail). -/
theorem c7_reversal_pairing :
    (∀ v ∈ lut5, rev13 v ≠ v → rev13 v ∈ lut5) ∧
    (∀ i j, i ≤ j → j < lut5.length →
      rev13 (lut5.getD i 0) = lut5.getD i 0 → rev13 (lut5.getD j 0) = lut5.getD j 0) ∧
    (∀ v ∈ lut2, rev13 v ≠ v → rev13 v ∈ lut2) ∧
    (∀ i j, i ≤ j → j < lut2.length →
      rev13 (lut2.getD i 0) = lut2.getD i 0 → rev13 (lut2.getD j 0) = lut2.getD j 0) := by
  refine ⟨?_, ?_, ?_, ?_⟩
  · intro v hv hne
    rw [lut5_eq] at hv ⊢
    exact parts_rev_closed (Or.inl rfl) hv hne
  · intro i j hij hj hsel
    rw [lut5_length] at hj
    rw [lut5_eq] at hsel ⊢
    exact parts_selfrec_tail 5 i j (Or.inl rfl) hij
      (by rw [pairs5_length, selfs5_length]; omega) hsel
  · intro v hv hne
    rw [lut2_eq] at hv ⊢
    exact parts_rev_closed (Or.inr rfl) hv hne
  · intro i j hij hj hsel
    rw [lut2_length] at hj
    rw [lut2_eq] at hsel ⊢
    exact parts_selfrec_tail 2 i j (Or.inr rfl) hij
      (by rw [pairs2_length, selfs2_length]; omega) hsel

theorem isdigit_spec {s : List Char} (h : isdigit s = true) :
    s ≠ [] ∧ ∀ c ∈ s, c.isDigit = true := by
  unfold isdigit at h
  simp only [Bool.and_eq_true, Bool.not_eq_true', List.all_eq_true] at h
  refine ⟨?_, h.2⟩
  intro hnil
  rw [hnil] at h
  simp at h

/-- Unpacked form of every conjunct of `valid`, with the two conditionals
resolved by the mailer and serial lengths. -/
theorem valid_unpack {r : IntelligentMailBarcode} (h : valid r = true) :
    isdigit r.barcode_id = true ∧ isdigit r.service_type_id = true ∧
    isdigit r.mailer_id = true ∧ isdigit r.serial_num = true ∧
    (isdigit r.deliv_zip = true ∨ r.deliv_zip.length = 0) ∧
    strVal r.barcode_id % 10 ≤ 4 ∧ strVal r.barcode_id ≤ 99 ∧
    strVal r.service_type_id ≤ 999 ∧
    ((r.mailer_id.length = 9 ∧ 900000000 ≤ strVal r.mailer_id ∧
        strVal r.mailer_id ≤ 999999999 ∧ r.serial_num.length = 6) ∨
     (r.mailer_id.length = 6 ∧ strVal r.mailer_id ≤ 899999 ∧
        r.serial_num.length = 9)) ∧
    (r.deliv_zip.length = 0 ∨ r.deliv_zip.length = 5 ∨
     r.deliv_zip.length = 9 ∨ r.deliv_zip.length = 11) := by
  unfold valid at h
  cases hm : r.mailer_id.length == 9 <;> rw [hm] at h <;>
    cases hsn : r.serial_num.length == 9 <;> rw [hsn] at h
  · -- mailer not 9 digits, serial not 9 digits: the pairing check fails
    rw [beq_eq_false_iff_ne] at hm
    simp only [Bool.and_eq_true, Bool.or_eq_true, beq_iff_eq, decide_eq_true_eq,
      Bool.false_eq_true, if_false, if_true, and_false, false_and] at h
  · -- mailer 6 digits, serial 9 digits
    rw [beq_eq_false_iff_ne] at hm
    rw [beq_iff_eq] at hsn
    simp only [Bool.and_eq_true, Bool.or_eq_true, beq_iff_eq, decide_eq_true_eq,
      Bool.false_eq_true, if_false, if_true, or_false, false_or] at h
    tauto
  · -- mailer 9 digits, serial 6 digits
    rw [beq_iff_eq] at hm
    rw [beq_eq_false_iff_ne] at hsn
    simp only [Bool.and_eq_true, Bool.or_eq_true, beq_iff_eq, decide_eq_true_eq,
      Bool.false_eq_true, if_false, if_true, or_false, false_or] at h
    tauto
  · -- mailer 9 digits, serial 9 digits: the pairing check fails
    rw [beq_iff_eq] at hm
    rw [hm] at h
    simp at h

theorem strVal_head_nine {l : List Char} (hlen : l.length = 9)
    (hdig : ∀ c ∈ l, c.isDigit = true) (hval : 900000000 ≤ strVal l) :
    l.get? 0 = some '9' := by
  cases l with
  | nil => simp at hlen
  | cons c cs =>
    have hcs : cs.length = 8 := by simpa using hlen
    have hrest : strVal cs < 10 ^ 8 := by
      have := strVal_lt cs (fun x hx => hdig x (by simp [hx]))
      rwa [hcs] at this
    have hd : digitVal c ≤ 9 := digitVal_le_nine (hdig c (by simp))
    have hv := strVal_cons c cs
    rw [hcs] at hv
    have hd9 : digitVal c = 9 := by
      by_contra hne
      have : digitVal c ≤ 8 := by omega
      have : strVal (c :: cs) < 900000000 := by
        rw [hv]
        have : digitVal c * 10 ^ 8 ≤ 8 * 10 ^ 8 :=
          Nat.mul_le_mul_right _ this
        omega
      omega
    have hc9 : c = '9' := by
      apply char_eq_of_toNat
      obtain ⟨h48, _⟩ := isDigit_iff.mp (hdig c (by simp))
      unfold digitVal at hd9
      have : c.toNat = 57 := by omega
      simpa [Char.toNat] using this
    rw [hc9]
    rfl

theorem strVal_head_small {l : List Char} (hlen : l.length = 6)
    (hval : strVal l ≤ 899999) :
    ∀ c, l.get? 0 = some c → c ≠ '9' := by
  cases l with
  | nil => simp at hlen
  | cons c cs =>
    intro x hx h9
    have hx' : x = c := by
      have := hx
      simp only [List.get?_cons_zero, Option.some.injEq] at this
      exact this.symm
    subst hx'
    subst h9
    have hcs : cs.length = 5 := by simpa using hlen
    have hv := strVal_cons '9' cs
    rw [hcs] at hv
    have : digitVal '9' = 9 := rfl
    rw [this] at hv
    omega

theorem tracking_length {r : IntelligentMailBarcode} :
    (tracking r).length = r.barcode_id.length + r.service_type_id.length +
      r.mailer_id.length + r.serial_num.length := by
  unfold tracking
  simp [List.length_append]
  omega

theorem tracking_get5 {r : IntelligentMailBarcode}
    (hb : r.barcode_id.length = 2) (hs : r.service_type_id.length = 3)
    (hm : r.mailer_id ≠ []) :
    (tracking r).get? 5 = r.mailer_id.get? 0 := by
  unfold tracking
  rw [List.get?_eq_getElem?, List.get?_eq_getElem?]
  have h5 : (r.barcode_id ++ r.service_type_id).length = 5 := by
    simp [hb, hs]
  have hlt : 5 < ((r.barcode_id ++ r.service_type_id) ++ r.mailer_id).length := by
    simp [hb, hs]
    cases hmm : r.mailer_id with
    | nil => exact absurd hmm hm
    | cons x xs => simp [hmm]; omega
  rw [show r.barcode_id ++ r.service_type_id ++ r.mailer_id ++ r.serial_num
      = ((r.barcode_id ++ r.service_type_id) ++ r.mailer_id) ++ r.serial_num by simp]
  rw [List.getElem?_append_left hlt]
  rw [List.getElem?_append_right (by omega : (r.barcode_id ++ r.service_type_id).length ≤ 5)]
  rw [h5]

/-- C9 (amended): for records the constructor accepts whose barcode id has 2
digits and service type id has 3 digits, the character at offset 5 of the
tracking projection is the digit 9 exactly when the mailer id has 9 digits. -/
theorem c9_offset5_marks_mailer_length (r : IntelligentMailBarcode)
    (hv : valid r = true) (hb : r.barcode_id.length = 2)
    (hs : r.service_type_id.length = 3) :
    (tracking r).get? 5 = some '9' ↔ r.mailer_id.length = 9 := by
  obtain ⟨_, _, d3, _, _, _, _, _, hms, _⟩ := valid_unpack hv
  obtain ⟨hmne, hmdig⟩ := isdigit_spec d3
  rw [tracking_get5 hb hs hmne]
  rcases hms with ⟨h9, hval, _, _⟩ | ⟨h6, hval, _⟩
  · simp only [h9, iff_true]
    exact strVal_head_nine h9 hmdig hval
  · constructor
    · intro hnine
      exact absurd rfl (strVal_head_small h6 hval '9' hnine)
    · intro h9
      omega

/-- C3 (amended): for records the constructor accepts whose barcode id has 2
digits and service type id has 3 digits, splitting the concatenated
tracking+routing string reconstructs the record exactly. -/
theorem c3_split_reconstructs (r : IntelligentMailBarcode)
    (hv : valid r = true) (hb : r.barcode_id.length = 2)
    (hs : r.service_type_id.length = 3) :
    from_t_and_r (tracking r ++ routing r) = .ok r := by
  obtain ⟨_, _, d3, d4, _, _, _, _, hms, _⟩ := valid_unpack hv
  obtain ⟨hmne, hmdig⟩ := isdigit_spec d3
  have hms15 : r.mailer_id.length + r.serial_num.length = 15 := by
    rcases hms with ⟨h9, _, _, h6⟩ | ⟨h6, _, h9⟩ <;> omega
  have htl : (tracking r).length = 20 := by
    rw [tracking_length]
    omega
  have h20 : (tracking r ++ routing r).take 20 = tracking r :=
    List.take_left' htl
  have hdrop : (tracking r ++ routing r).drop 20 = routing r :=
    List.drop_left' htl
  obtain ⟨bid, stid, mid, snum, zip⟩ := r
  simp only [tracking, routing] at h20 hdrop htl hms15 hmne hmdig hms hv ⊢
  simp only [IntelligentMailBarcode.tracking, IntelligentMailBarcode.routing] at *
  unfold from_t_and_r
  simp only [h20, hdrop]
  have hassoc5 : bid ++ stid ++ mid ++ snum = (bid ++ stid) ++ (mid ++ snum) := by
    simp
  have hlen5 : (bid ++ stid).length = 5 := by
    simp [hb, hs]
  have htake2 : (bid ++ stid ++ mid ++ snum).take 2 = bid := by
    rw [show bid ++ stid ++ mid ++ snum = bid ++ (stid ++ mid ++ snum) by simp]
    exact List.take_left' hb
  have hdrop2 : (bid ++ stid ++ mid ++ snum).drop 2 = stid ++ mid ++ snum := by
    rw [show bid ++ stid ++ mid ++ snum = bid ++ (stid ++ mid ++ snum) by simp]
    exact List.drop_left' hb
  have htake3 : (stid ++ mid ++ snum).take 3 = stid := by
    rw [show stid ++ mid ++ snum = stid ++ (mid ++ snum) by simp]
    exact List.take_left' hs
  have hdrop5 : (bid ++ stid ++ mid ++ snum).drop 5 = mid ++ snum := by
    rw [hassoc5]
    exact List.drop_left' hlen5
  rcases hms with ⟨h9, hval, _, h6⟩ | ⟨h6, hval, h9⟩
  · -- 9-digit mailer: offset 5 is the digit 9
    have hget : (bid ++ stid ++ mid ++ snum).get? 5 = some '9' := by
      have := tracking_get5 (r := ⟨bid, stid, mid, snum, zip⟩) hb hs hmne
      simp only [IntelligentMailBarcode.tracking] at this
      rw [this]
      exact strVal_head_nine h9 hmdig hval
    rw [hget]
    dsimp only
    rw [if_pos rfl]
    dsimp only
    have hm9 : (mid ++ snum).take 9 = mid := List.take_left' h9
    have hdrop14 : (bid ++ stid ++ mid ++ snum).drop 14 = snum := by
      rw [show bid ++ stid ++ mid ++ snum = ((bid ++ stid) ++ mid) ++ snum by simp]
      refine List.drop_left' ?_
      simp [hb, hs, h9]
    have hs6 : snum.take 6 = snum := List.take_of_length_le (by omega)
    rw [hdrop5, hm9, hdrop14, hs6, htake2, hdrop2, htake3]
    rw [if_pos hv]
  · -- 6-digit mailer: offset 5 is not the digit 9
    obtain ⟨m0, mrest, rfl⟩ : ∃ m0 mrest, mid = m0 :: mrest := by
      cases mid with
      | nil => exact absurd rfl hmne
      | cons a l => exact ⟨a, l, rfl⟩
    have hget : (bid ++ stid ++ (m0 :: mrest) ++ snum).get? 5 = some m0 := by
      have := tracking_get5 (r := ⟨bid, stid, m0 :: mrest, snum, zip⟩) hb hs hmne
      simp only [IntelligentMailBarcode.tracking] at this
      rw [this]
      rfl
    rw [hget]
    dsimp only
    have hne9 : ¬ m0 = '9' := strVal_head_small h6 hval m0 rfl
    rw [if_neg hne9]
    dsimp only
    have hm6 : ((m0 :: mrest) ++ snum).take 6 = m0 :: mrest := List.take_left' h6
    have hdrop11 : (bid ++ stid ++ (m0 :: mrest) ++ snum).drop 11 = snum := by
      rw [show bid ++ stid ++ (m0 :: mrest) ++ snum
          = ((bid ++ stid) ++ (m0 :: mrest)) ++ snum by simp]
      refine List.drop_left' ?_
      have h6' : mrest.length = 5 := by simpa using h6
      simp [hb, hs, h6']
    have hs9 : snum.take 9 = snum := List.take_of_length_le (by omega)
    rw [hdrop5, hm6, hdrop11, hs9, htake2, hdrop2, htake3]
    rw [if_pos hv]

theorem routingCode_bound {z : List Char} (hdig : isdigit z = true ∨ z.length = 0)
    (hlen : z.length = 0 ∨ z.length = 5 ∨ z.length = 9 ∨ z.length = 11) :
    ∃ rc0, routingCode z = some rc0 ∧ rc0 ≤ 101000100000 := by
  have hd : ∀ c ∈ z, c.isDigit = true := by
    rcases hdig with h | h
    · exact (isdigit_spec h).2
    · rw [List.length_eq_zero] at h
      subst h
      intro c hc
      simp at hc
  have hv := strVal_lt z hd
  rcases hlen with h | h | h | h <;> rw [h] at hv <;> norm_num at hv
  · exact ⟨0, by unfold routingCode; simp [h], by norm_num⟩
  · exact ⟨strVal z + 1, by unfold routingCode; simp [h], by omega⟩
  · exact ⟨strVal z + 100001, by unfold routingCode; simp [h], by omega⟩
  · exact ⟨strVal z + 1000100001, by unfold routingCode; simp [h], by omega⟩

theorem binaryCompose_bound (r : IntelligentMailBarcode)
    (hv : valid r = true) (hb : r.barcode_id.length = 2)
    (hs : r.service_type_id.length = 3) :
    ∃ rc, binaryCompose r = some rc ∧ rc < 5050005000050 * 10 ^ 18 := by
  obtain ⟨db, dst, dm, dsn, dz, hmod, hb99, hst, hms, hzlen⟩ := valid_unpack hv
  obtain ⟨rc0, hrc0, hrc0b⟩ := routingCode_bound dz hzlen
  obtain ⟨c0, c1, hbid⟩ := List.length_eq_two.mp hb
  have ht : tracking r
      = c0 :: c1 :: (r.service_type_id ++ r.mailer_id ++ r.serial_num) := by
    unfold tracking
    rw [hbid]
    simp
  have hg0 : (tracking r).get? 0 = some c0 := by rw [ht]; rfl
  have hg1 : (tracking r).get? 1 = some c1 := by rw [ht]; rfl
  have hc0 : digitVal c0 ≤ 9 :=
    digitVal_le_nine ((isdigit_spec db).2 c0 (by rw [hbid]; simp))
  have hc1d : digitVal c1 ≤ 9 :=
    digitVal_le_nine ((isdigit_spec db).2 c1 (by rw [hbid]; simp))
  have hc1 : digitVal c1 ≤ 4 := by
    rw [hbid] at hmod
    have e1 : strVal [c0, c1] = digitVal c0 * 10 + digitVal c1 := by
      rw [strVal_cons, strVal_cons]
      simp [strVal]
    rw [e1] at hmod
    omega
  have hdrop : (tracking r).drop 2
      = r.service_type_id ++ r.mailer_id ++ r.serial_num := by
    rw [ht]
    rfl
  have hdl : (r.service_type_id ++ r.mailer_id ++ r.serial_num).length = 18 := by
    rcases hms with ⟨h9, _, _, h6⟩ | ⟨h6, _, h9⟩ <;> simp [hs, h9, h6]
  have hddig : ∀ c ∈ r.service_type_id ++ r.mailer_id ++ r.serial_num,
      c.isDigit = true := by
    intro c hc
    simp only [List.mem_append] at hc
    rcases hc with (hc | hc) | hc
    · exact (isdigit_spec dst).2 c hc
    · exact (isdigit_spec dm).2 c hc
    · exact (isdigit_spec dsn).2 c hc
  refine ⟨((tracking r).drop 2).foldl (fun a c => a * 10 + digitVal c)
      ((rc0 * 10 + digitVal c0) * 5 + digitVal c1), ?_, ?_⟩
  · unfold binaryCompose
    simp only [routing, hrc0, Option.some_bind, hg0, hg1]
    rfl
  · rw [hdrop]
    have e2 := strVal_aux (r.service_type_id ++ r.mailer_id ++ r.serial_num)
      ((rc0 * 10 + digitVal c0) * 5 + digitVal c1)
    rw [e2, hdl]
    have e3 := strVal_lt _ hddig
    rw [hdl] at e3
    have hrc1 : (rc0 * 10 + digitVal c0) * 5 + digitVal c1 ≤ 5050005000049 := by
      omega
    calc ((rc0 * 10 + digitVal c0) * 5 + digitVal c1) * 10 ^ 18 +
          strVal (r.service_type_id ++ r.mailer_id ++ r.serial_num)
        < ((rc0 * 10 + digitVal c0) * 5 + digitVal c1) * 10 ^ 18 + 10 ^ 18 := by omega
      _ = ((rc0 * 10 + digitVal c0) * 5 + digitVal c1 + 1) * 10 ^ 18 := by ring
      _ ≤ 5050005000050 * 10 ^ 18 := by
          have : (rc0 * 10 + digitVal c0) * 5 + digitVal c1 + 1 ≤ 5050005000050 := by omega
          exact Nat.mul_le_mul_right _ this

/-- For composed values below the mixed-radix capacity, the codeword stage
succeeds, codeword A stays within `[0, 658]`, and after modification every
codeword is within `[0, 1364]`. -/
theorem codewordGen_of_bound {rc : Nat} (h : rc < 5050005000050 * 10 ^ 18) :
    ∃ cws, codewordGen rc = some cws ∧
      (∃ a rest, cws = a :: rest ∧ a ≤ 658) ∧ cws.length = 10 ∧
      ∀ fcs, (modifyCodewords fcs cws).length = 10 ∧
        ∀ cw ∈ modifyCodewords fcs cws, cw ≤ 1364 := by
  have h658 : rc / 636 / 1365 / 1365 / 1365 / 1365 / 1365 / 1365 / 1365 / 1365 ≤ 658 := by
    have e1 : rc / 636 / 1365 / 1365 / 1365 / 1365 / 1365 / 1365 / 1365 / 1365
        = rc / (636 * 1365 * 1365 * 1365 * 1365 * 1365 * 1365 * 1365 * 1365) := by
      repeat rw [Nat.div_div_eq_div_mul]
    rw [e1]
    have h2 : rc < 659 * (636 * 1365 * 1365 * 1365 * 1365 * 1365 * 1365 * 1365 * 1365) := by
      calc rc < 5050005000050 * 10 ^ 18 := h
        _ ≤ 659 * (636 * 1365 * 1365 * 1365 * 1365 * 1365 * 1365 * 1365 * 1365) := by
            norm_num
    have h3 : rc / (636 * 1365 * 1365 * 1365 * 1365 * 1365 * 1365 * 1365 * 1365) < 659 :=
      (Nat.div_lt_iff_lt_mul
        (show 0 < 636 * 1365 * 1365 * 1365 * 1365 * 1365 * 1365 * 1365 * 1365
          by norm_num)).mpr (by omega)
    omega
  have hcg : codewordGen rc = some
      [rc / 636 / 1365 / 1365 / 1365 / 1365 / 1365 / 1365 / 1365 / 1365,
       rc / 636 / 1365 / 1365 / 1365 / 1365 / 1365 / 1365 / 1365 % 1365,
       rc / 636 / 1365 / 1365 / 1365 / 1365 / 1365 / 1365 % 1365,
       rc / 636 / 1365 / 1365 / 1365 / 1365 / 1365 % 1365,
       rc / 636 / 1365 / 1365 / 1365 / 1365 % 1365,
       rc / 636 / 1365 / 1365 / 1365 % 1365,
       rc / 636 / 1365 / 1365 % 1365,
       rc / 636 / 1365 % 1365,
       rc / 636 % 1365,
       rc % 636] := by
    unfold codewordGen
    rw [if_pos h658]
  refine ⟨_, hcg, ⟨_, _, rfl, h658⟩, rfl, ?_⟩
  intro fcs
  have hj : rc % 636 ≤ 635 := by
    have := Nat.mod_lt rc (show 0 < 636 by norm_num)
    omega
  have m1 : rc / 636 % 1365 ≤ 1364 := by
    have := Nat.mod_lt (rc / 636) (show 0 < 1365 by norm_num)
    omega
  have m2 : rc / 636 / 1365 % 1365 ≤ 1364 := by
    have := Nat.mod_lt (rc / 636 / 1365) (show 0 < 1365 by norm_num)
    omega
  have m3 : rc / 636 / 1365 / 1365 % 1365 ≤ 1364 := by
    have := Nat.mod_lt (rc / 636 / 1365 / 1365) (show 0 < 1365 by norm_num)
    omega
  have m4 : rc / 636 / 1365 / 1365 / 1365 % 1365 ≤ 1364 := by
    have := Nat.mod_lt (rc / 636 / 1365 / 1365 / 1365) (show 0 < 1365 by norm_num)
    omega
  have m5 : rc / 636 / 1365 / 1365 / 1365 / 1365 % 1365 ≤ 1364 := by
    have := Nat.mod_lt (rc / 636 / 1365 / 1365 / 1365 / 1365)
      (show 0 < 1365 by norm_num)
    omega
  have m6 : rc / 636 / 1365 / 1365 / 1365 / 1365 / 1365 % 1365 ≤ 1364 := by
    have := Nat.mod_lt (rc / 636 / 1365 / 1365 / 1365 / 1365 / 1365)
      (show 0 < 1365 by norm_num)
    omega
  have m7 : rc / 636 / 1365 / 1365 / 1365 / 1365 / 1365 / 1365 % 1365 ≤ 1364 := by
    have := Nat.mod_lt (rc / 636 / 1365 / 1365 / 1365 / 1365 / 1365 / 1365)
      (show 0 < 1365 by norm_num)
    omega
  have m8 : rc / 636 / 1365 / 1365 / 1365 / 1365 / 1365 / 1365 / 1365 % 1365 ≤ 1364 := by
    have := Nat.mod_lt (rc / 636 / 1365 / 1365 / 1365 / 1365 / 1365 / 1365 / 1365)
      (show 0 < 1365 by norm_num)
    omega
  unfold modifyCodewords
  refine ⟨rfl, ?_⟩
  intro cw hcw
  simp only [List.mem_cons, List.not_mem_nil, or_false] at hcw
  rcases hcw with h1 | h1 | h1 | h1 | h1 | h1 | h1 | h1 | h1 | h1 <;> subst h1 <;>
    first
      | (split <;> omega)
      | omega

theorem cwToChar_some {cw : Nat} (h : cw ≤ 1364) : ∃ c, cwToChar cw = some c := by
  unfold cwToChar
  by_cases h1 : cw ≤ 1286
  · rw [if_pos h1]
    have hlt : cw < lut5.length := by
      rw [lut5_length]
      omega
    rw [List.get?_eq_getElem?]
    exact ⟨_, List.getElem?_eq_getElem hlt⟩
  · rw [if_neg h1, if_pos (by omega)]
    have hlt : cw - 1287 < lut2.length := by
      rw [lut2_length]
      omega
    rw [List.get?_eq_getElem?]
    exact ⟨_, List.getElem?_eq_getElem hlt⟩

theorem charsOfCodewords_some {l : List Nat} (h : ∀ cw ∈ l, cw ≤ 1364) :
    ∃ cs, charsOfCodewords l = some cs ∧ cs.length = l.length := by
  induction l with
  | nil => exact ⟨[], rfl, rfl⟩
  | cons cw rest ih =>
    obtain ⟨c, hc⟩ := cwToChar_some (h cw (by simp))
    obtain ⟨cs, hcs, hlen⟩ := ih (fun x hx => h x (by simp [hx]))
    refine ⟨c :: cs, ?_, by simp [hlen]⟩
    unfold charsOfCodewords
    rw [hc, hcs]

theorem invertChars_length (fcs : Nat) : ∀ i l, (invertChars fcs i l).length = l.length := by
  intro i l
  induction l generalizing i with
  | nil => rfl
  | cons c cs ih => simp [invertChars, ih]

set_option maxRecDepth 4000 in
theorem bar_table_facts :
    (bar_construction_table.map (fun bt => bt.length == 65 &&
      bt.all (fun bm => decide (bm.1 < 10) && decide (bm.2.2.1 < 10)))).getD false
      = true := by
  decide!

theorem bar_table_spec :
    ∃ bt, bar_construction_table = some bt ∧ bt.length = 65 ∧
      ∀ bm ∈ bt, bm.1 < 10 ∧ bm.2.2.1 < 10 := by
  have h := bar_table_facts
  cases hbt : bar_construction_table with
  | none => rw [hbt] at h; simp at h
  | some bt =>
    rw [hbt] at h
    simp at h
    refine ⟨bt, rfl, h.1, ?_⟩
    intro bm hbm
    exact h.2 bm.1 bm.2.1 bm.2.2.1 bm.2.2.2 hbm

theorem barChar_spec (cl : List Nat) (bm : Nat × Nat × Nat × Nat)
    (h1 : bm.1 < 10) (h2 : bm.2.2.1 < 10) (hcl : cl.length = 10) :
    ∃ ch, barChar cl bm = some ch ∧
      (ch = 'A' ∨ ch = 'D' ∨ ch = 'T' ∨ ch = 'F') := by
  unfold barChar
  have e1 : ∃ v, cl.get? bm.2.2.1 = some v := by
    rw [List.get?_eq_getElem?]
    exact ⟨_, List.getElem?_eq_getElem (by omega)⟩
  have e2 : ∃ v, cl.get? bm.1 = some v := by
    rw [List.get?_eq_getElem?]
    exact ⟨_, List.getElem?_eq_getElem (by omega)⟩
  obtain ⟨va, ha⟩ := e1
  obtain ⟨vd, hd⟩ := e2
  rw [ha, hd]
  refine ⟨_, rfl, ?_⟩
  split_ifs <;> simp

theorem barsOf_spec (cl : List Nat) (hcl : cl.length = 10) :
    ∀ bt : List (Nat × Nat × Nat × Nat), (∀ bm ∈ bt, bm.1 < 10 ∧ bm.2.2.1 < 10) →
    ∃ bars, barsOf cl bt = some bars ∧ bars.length = bt.length ∧
      ∀ ch ∈ bars, ch = 'A' ∨ ch = 'D' ∨ ch = 'T' ∨ ch = 'F' := by
  intro bt
  induction bt with
  | nil => exact fun _ => ⟨[], rfl, rfl, by simp⟩
  | cons bm rest ih =>
    intro hb
    obtain ⟨ch, hch, hchmem⟩ := barChar_spec cl bm (hb bm (by simp)).1
      (hb bm (by simp)).2 hcl
    obtain ⟨bars, hbars, hlen, hmem⟩ := ih (fun x hx => hb x (by simp [hx]))
    refine ⟨ch :: bars, ?_, by simp [hlen], ?_⟩
    · unfold barsOf
      rw [hch, hbars]
    · intro x hx
      rcases List.mem_cons.mp hx with h | h
      · subst h
        exact hchmem
      · exact hmem x h

/-- C1 (amended): encoding any accepted record whose barcode id has 2 digits
and service type id has 3 digits succeeds and yields 65 symbols drawn from
A, D, T, F. -/
theorem c1_encode_wellformed (r : IntelligentMailBarcode)
    (hv : valid r = true) (hb : r.barcode_id.length = 2)
    (hs : r.service_type_id.length = 3) :
    ∃ out, encode r = some out ∧ out.length = 65 ∧
      ∀ ch ∈ out, ch = 'A' ∨ ch = 'D' ∨ ch = 'T' ∨ ch = 'F' := by
  obtain ⟨rc, hrc, hbound⟩ := binaryCompose_bound r hv hb hs
  obtain ⟨cws, hcg, _, hcwlen, hmod⟩ := codewordGen_of_bound hbound
  obtain ⟨hmlen, hmbound⟩ := hmod (computeFcs rc)
  obtain ⟨cs, hcs, hcslen⟩ := charsOfCodewords_some hmbound
  obtain ⟨bt, hbt, hbtlen, hbtidx⟩ := bar_table_spec
  have hclen : (invertChars (computeFcs rc) 0 cs).length = 10 := by
    rw [invertChars_length, hcslen, hmlen]
  obtain ⟨bars, hbars, hbarslen, hbarsmem⟩ := barsOf_spec _ hclen bt hbtidx
  refine ⟨bars, ?_, by rw [hbarslen, hbtlen], hbarsmem⟩
  unfold encode
  rw [hrc]
  simp only [Option.bind_eq_bind, Option.some_bind]
  rw [hcg]
  simp only [Option.some_bind]
  rw [hcs]
  simp only [Option.some_bind]
  rw [hbt]
  simp only [Option.some_bind]
  exact hbars

/-- C2 (amended): for accepted records with 2-digit barcode id and 3-digit
service type id, the mixed-radix stage succeeds with codeword A in
`[0, 658]`, and after modification every codeword is within `[0, 1364]`. -/
theorem c2_codewords_in_range (r : IntelligentMailBarcode)
    (hv : valid r = true) (hb : r.barcode_id.length = 2)
    (hs : r.service_type_id.length = 3) :
    ∃ rc cws, binaryCompose r = some rc ∧ codewordGen rc = some cws ∧
      (∃ a rest, cws = a :: rest ∧ a ≤ 658) ∧
      ∀ cw ∈ modifyCodewords (computeFcs rc) cws, cw ≤ 1364 := by
  obtain ⟨rc, hrc, hbound⟩ := binaryCompose_bound r hv hb hs
  obtain ⟨cws, hcg, ha, _, hmod⟩ := codewordGen_of_bound hbound
  exact ⟨rc, cws, hrc, hcg, ha, (hmod (computeFcs rc)).2⟩

/-- C8 (amended): for accepted records with 2-digit barcode id and 3-digit
service type id, the composed integer fits in 103 bits. -/
theorem c8_composed_fits (r : IntelligentMailBarcode)
    (hv : valid r = true) (hb : r.barcode_id.length = 2)
    (hs : r.service_type_id.length = 3) :
    ∃ rc, binaryCompose r = some rc ∧ rc < 2 ^ 103 := by
  obtain ⟨rc, hrc, hbound⟩ := binaryCompose_bound r hv hb hs
  exact ⟨rc, hrc, lt_of_lt_of_le hbound (by norm_num)⟩




/-- C1 counterexample: the constructor accepts a record with a 4-digit
barcode id of numeric value 0 and a full 11-digit zip, but `encode` fails on
it (the codeword-range assertion fires), so encode does not return a
65-symbol string for every accepted record. -/
theorem c1_counterexample :
    valid ⟨"0000".toList, "000".toList, "123456".toList, "123456789".toList,
      "99999999999".toList⟩ = true ∧
    encode ⟨"0000".toList, "000".toList, "123456".toList, "123456789".toList,
      "99999999999".toList⟩ = none := by
  constructor
  · decide
  · decide

theorem c1_encode_wellformed_witness :
    valid ⟨"01".toList, "234".toList, "567094".toList, "987654321".toList,
      "01234567891".toList⟩ = true ∧
    (⟨"01".toList, "234".toList, "567094".toList, "987654321".toList,
      "01234567891".toList⟩ : IntelligentMailBarcode).barcode_id.length = 2 ∧
    (⟨"01".toList, "234".toList, "567094".toList, "987654321".toList,
      "01234567891".toList⟩ : IntelligentMailBarcode).service_type_id.length = 3 ∧
    (∃ out, encode ⟨"01".toList, "234".toList, "567094".toList, "987654321".toList,
        "01234567891".toList⟩ = some out ∧ out.length = 65 ∧
      ∀ ch ∈ out, ch = 'A' ∨ ch = 'D' ∨ ch = 'T' ∨ ch = 'F') :=
  ⟨by decide, by decide, by decide,
    c1_encode_wellformed _ (by decide) (by decide) (by decide)⟩

/-- C2 counterexample: the same accepted record drives the mixed-radix
decomposition out of range, so the codeword stage fails. -/
theorem c2_counterexample :
    valid ⟨"0000".toList, "000".toList, "123456".toList, "123456789".toList,
      "99999999999".toList⟩ = true ∧
    (binaryCompose ⟨"0000".toList, "000".toList, "123456".toList,
      "123456789".toList, "99999999999".toList⟩ >>= codewordGen) = none := by
  constructor
  · decide
  · decide

theorem c2_codewords_in_range_witness :
    valid ⟨"01".toList, "044".toList, "123456".toList, "987654321".toList,
      [] ⟩ = true ∧
    ("01".toList.length = 2) ∧ ("044".toList.length = 3) ∧
    (∃ rc cws, binaryCompose ⟨"01".toList, "044".toList, "123456".toList,
        "987654321".toList, []⟩ = some rc ∧ codewordGen rc = some cws ∧
      (∃ a rest, cws = a :: rest ∧ a ≤ 658) ∧
      ∀ cw ∈ modifyCodewords (computeFcs rc) cws, cw ≤ 1364) :=
  ⟨by decide, by decide, by decide,
    c2_codewords_in_range _ (by decide) (by decide) (by decide)⟩

/-- C8 counterexample: the same accepted record composes to an integer of
more than 103 bits. -/
theorem c8_counterexample :
    valid ⟨"0000".toList, "000".toList, "123456".toList, "123456789".toList,
      "99999999999".toList⟩ = true ∧
    (binaryCompose ⟨"0000".toList, "000".toList, "123456".toList,
      "123456789".toList, "99999999999".toList⟩).isSome = true ∧
    2 ^ 103 ≤ (binaryCompose ⟨"0000".toList, "000".toList, "123456".toList,
      "123456789".toList, "99999999999".toList⟩).getD 0 := by
  refine ⟨by decide, by decide, by decide⟩

theorem c8_composed_fits_witness :
    valid ⟨"01".toList, "300".toList, "902000000".toList, "123456".toList,
      "12345".toList⟩ = true ∧
    ("01".toList.length = 2) ∧ ("300".toList.length = 3) ∧
    (∃ rc, binaryCompose ⟨"01".toList, "300".toList, "902000000".toList,
      "123456".toList, "12345".toList⟩ = some rc ∧ rc < 2 ^ 103) :=
  ⟨by decide, by decide, by decide,
    c8_composed_fits _ (by decide) (by decide) (by decide)⟩

/-- C9 counterexample: an accepted record with a 1-digit barcode id shifts
the tracking offsets, so the character at offset 5 is the digit 9 while the
mailer id has only 6 digits. -/
theorem c9_counterexample :
    valid ⟨"1".toList, "009".toList, "190000".toList, "123456789".toList, []⟩ = true ∧
    (tracking ⟨"1".toList, "009".toList, "190000".toList,
      "123456789".toList, []⟩).get? 5 = some '9' ∧
    (⟨"1".toList, "009".toList, "190000".toList, "123456789".toList, []⟩ :
      IntelligentMailBarcode).mailer_id.length ≠ 9 := by
  refine ⟨by decide, by decide, by decide⟩

theorem c9_offset5_witness :
    valid ⟨"12".toList, "700".toList, "950000123".toList, "123456".toList,
      "12345".toList⟩ = true ∧
    ("12".toList.length = 2) ∧ ("700".toList.length = 3) ∧
    ((tracking ⟨"12".toList, "700".toList, "950000123".toList, "123456".toList,
        "12345".toList⟩).get? 5 = some '9' ↔
      (⟨"12".toList, "700".toList, "950000123".toList, "123456".toList,
        "12345".toList⟩ : IntelligentMailBarcode).mailer_id.length = 9) :=
  ⟨by decide, by decide, by decide,
    c9_offset5_marks_mailer_length _ (by decide) (by decide) (by decide)⟩

/-- C3 counterexample: for the same shifted record, re-splitting the
concatenated tracking+routing string does not reconstruct the record; it
fails validation instead. -/
theorem c3_counterexample :
    valid ⟨"1".toList, "009".toList, "190000".toList, "123456789".toList, []⟩ = true ∧
    from_t_and_r (tracking ⟨"1".toList, "009".toList, "190000".toList,
        "123456789".toList, []⟩ ++
      routing ⟨"1".toList, "009".toList, "190000".toList, "123456789".toList, []⟩)
      = .error .validationError := by
  refine ⟨by decide, by rfl⟩

theorem c3_split_reconstructs_witness :
    valid ⟨"03".toList, "123".toList, "123450".toList, "920011234".toList,
      "123456789".toList⟩ = true ∧
    ("03".toList.length = 2) ∧ ("123".toList.length = 3) ∧
    from_t_and_r (tracking ⟨"03".toList, "123".toList, "123450".toList,
        "920011234".toList, "123456789".toList⟩ ++
      routing ⟨"03".toList, "123".toList, "123450".toList, "920011234".toList,
        "123456789".toList⟩)
      = .ok ⟨"03".toList, "123".toList, "123450".toList, "920011234".toList,
        "123456789".toList⟩ :=
  ⟨by decide, by decide, by decide,
    c3_split_reconstructs _ (by decide) (by decide) (by decide)⟩

end USPSIMB
